import Mathlib

/-!
# Verification of the scan-sources rebuild-decision engine

Shallow embedding of `doozer/doozerlib/cli/scan_sources_konflux.py`
(`ConfigScanSources`): the per-target rebuild decision cascade, the
failed-build backoff window, the change-propagation state
(`add_assessment_reason`, `add_image_meta_change`, `check_builder_images`),
the public-upstream reconciliation path, and the report generation.

External collaborators (the Konflux build-record database, the upstream
source resolver, git subprocess outcomes) are passed in as explicit
function or data parameters; times are integers in seconds since an
arbitrary epoch.
-/

namespace ScanSources

/-- Modelled from the spec: `RebuildHintCode` lives in `doozerlib/metadata.py`,
which is not part of the scanned sources; the spec describes it as a closed
enumeration of decision codes. -/
inductive RebuildHintCode where
  | NO_LATEST_BUILD
  | NEW_UPSTREAM_COMMIT
  | LAST_BUILD_FAILED
  | DELAYING_NEXT_ATTEMPT
  | UPSTREAM_COMMIT_MISMATCH
  | BUILD_IS_UP_TO_DATE
  | ANCESTOR_CHANGING
  | BUILDER_CHANGING
  | DEPENDENCY_NEWER
  | CONFIG_CHANGE
  deriving DecidableEq, Repr

/-- Modelled from the spec: the boolean "needs rebuild" derived from each
code (§4.1 of the spec gives the boolean for each decision outcome:
`DELAYING_NEXT_ATTEMPT` and `BUILD_IS_UP_TO_DATE` carry rebuild = false,
every other code carries rebuild = true). -/
def RebuildHintCode.needsRebuild : RebuildHintCode → Bool
  | .DELAYING_NEXT_ATTEMPT => false
  | .BUILD_IS_UP_TO_DATE => false
  | _ => true

/-- A rebuild decision: a code plus a human-readable reason.  Matches the
`RebuildHint(code=..., reason=...)` constructor calls in the scanned file. -/
structure RebuildHint where
  code : RebuildHintCode
  reason : String
  deriving DecidableEq, Repr

/-- The derived `rebuild` boolean of a hint (`hint.rebuild` in the source). -/
def RebuildHint.rebuild (h : RebuildHint) : Bool :=
  h.code.needsRebuild

/-- The fields of a Konflux build record that the scan consults:
`nvr`, `start_time` (seconds) and the source commit (`commitish`). -/
structure KonfluxBuildRecord where
  nvr : String
  start_time : Int
  commitish : String
  deriving DecidableEq, Repr

/-- The search parameters shared by all build-record queries made by
`target_needs_rebuild` (engine is always KONFLUX and is left implicit). -/
structure SearchParams where
  name : String
  group : String
  assembly : String
  el_target : Option String
  deriving DecidableEq, Repr

/-- The Konflux build-record store as consulted by the scan:
`latest sp` models `get_latest_build(**search_params)`;
`latestWithCommit sp c` models the query with `extra_patterns={'commitish': c}`;
`latestFailedMatching sp p` models the query with
`extra_patterns={'release': '.g*' + p}` and `outcome=FAILURE`. -/
structure BuildDb where
  latest : SearchParams → Option KonfluxBuildRecord
  latestWithCommit : SearchParams → String → Option KonfluxBuildRecord
  latestFailedMatching : SearchParams → String → Option KonfluxBuildRecord

/-- The constant `DEFAULT_THRESHOLD_HOURS` from the scanned file. -/
def DEFAULT_THRESHOLD_HOURS : Nat := 6

/-- Models `self.runtime.group_config.scan_freshness.threshold_hours or
DEFAULT_THRESHOLD_HOURS`: a missing value, and a configured value of 0
(falsy in Python), both fall back to the default. -/
def resolveThresholdHours : Option Nat → Nat
  | none => DEFAULT_THRESHOLD_HOURS
  | some n => if n = 0 then DEFAULT_THRESHOLD_HOURS else n

/-- Models `ConfigScanSources.handle_missing_upstream_commit_build`.  There is no
build for the current upstream commit; decide between a net-new commit and
a backoff after a failed attempt.  `failed_commit_build` is the result of
the FAILURE-outcome query; `now` and `start_time` are in seconds, and
`timedelta(hours=rebuild_interval)` becomes `rebuild_interval * 3600`. -/
def handle_missing_upstream_commit_build (threshold_hours_cfg : Option Nat)
    (now : Int) (failed_commit_build : Option KonfluxBuildRecord)
    (upstream_commit_hash : String) : RebuildHint :=
  let rebuild_interval := resolveThresholdHours threshold_hours_cfg
  match failed_commit_build with
  | none =>
      { code := .NEW_UPSTREAM_COMMIT,
        reason := "A new upstream commit exists and needs to be built" }
  | some failed_build =>
      if failed_build.start_time + (rebuild_interval : Int) * 3600 < now then
        { code := .LAST_BUILD_FAILED,
          reason := s!"It has been {rebuild_interval} hours since last failed build attempt" }
      else
        { code := .DELAYING_NEXT_ATTEMPT,
          reason := s!"Last build of upstream commit {upstream_commit_hash} failed, but holding off for at least {rebuild_interval} hours before next attempt" }

/-- Models `ConfigScanSources.target_needs_rebuild`.  `detect_upstream` stands for
`SourceResolver.detect_remote_source_branch` (it is only invoked once a
latest build exists, mirroring the order of operations in the source). -/
def target_needs_rebuild (db : BuildDb) (detect_upstream : Unit → String)
    (threshold_hours_cfg : Option Nat) (now : Int) (component_name : String)
    (sp : SearchParams) : RebuildHint :=
  match db.latest sp with
  | none =>
      { code := .NO_LATEST_BUILD,
        reason := s!"Component {component_name} has no latest build for assembly {sp.assembly} and target {sp.el_target}" }
  | some latest_build =>
      let upstream_commit_hash := detect_upstream ()
      match db.latestWithCommit sp upstream_commit_hash with
      | none =>
          handle_missing_upstream_commit_build threshold_hours_cfg now
            (db.latestFailedMatching sp (upstream_commit_hash.take 7))
            upstream_commit_hash
      | some upstream_commit_build =>
          if latest_build.nvr ≠ upstream_commit_build.nvr then
            { code := .UPSTREAM_COMMIT_MISMATCH,
              reason := s!"Latest build {latest_build.nvr} does not match upstream commit build {upstream_commit_build.nvr}; commit reverted?" }
          else
            { code := .BUILD_IS_UP_TO_DATE,
              reason := s!"Build already exists for current upstream commit {upstream_commit_hash}" }

/-- The trigger condition of the multi-target loop in
`does_meta_need_rebuild`: `hint.rebuild or hint.code == DELAYING_NEXT_ATTEMPT`. -/
def hintTriggers (h : RebuildHint) : Bool :=
  h.rebuild || h.code = RebuildHintCode.DELAYING_NEXT_ATTEMPT

/-- The `for target in meta.config.targets` loop of `does_meta_need_rebuild`,
for a non-empty target list `t :: ts`: evaluate targets in order, return the
first hint that triggers, and after the loop return the last hint computed.
The second component records the targets actually evaluated. -/
def does_meta_need_rebuild_targets (evalTarget : String → RebuildHint) :
    String → List String → RebuildHint × List String
  | t, ts =>
      let hint := evalTarget t
      if hintTriggers hint then (hint, [t])
      else
        match ts with
        | [] => (hint, [t])
        | t' :: ts' =>
            let (h, tr) := does_meta_need_rebuild_targets evalTarget t' ts'
            (h, t :: tr)

/-- The image metadata fields the propagation phase consults: the distgit
key, the qualified key (used for assessment-reason map keys), and the
members named by `config['from'].builder` (the empty string models a
builder entry with no `member`, which Python treats as falsy). -/
structure ImageMeta where
  distgit_key : String
  qualified_key : String
  builders : List String
  deriving DecidableEq, Repr

/-- The mutable scan state the propagation phase writes:
`changing_image_metas` (a Python set, modelled as a duplicate-free-by-insert
list) and `assessment_reason` (a dict keyed by
`f'{qualified_key}+{rebuild}'`, modelled as an association list keyed by the
(qualified_key, rebuild) pair, insertion-ordered). -/
structure ScanState where
  changing_image_metas : List ImageMeta
  assessment_reason : List ((String × Bool) × String)
  deriving DecidableEq, Repr

/-- Set-semantics insertion into `changing_image_metas`
(`self.changing_image_metas.add(meta)`). -/
def insertMeta (l : List ImageMeta) (m : ImageMeta) : List ImageMeta :=
  if m ∈ l then l else l ++ [m]

/-- Lookup in the assessment-reason map (first binding wins, as in a dict
that is only ever extended with fresh keys). -/
def lookupReason : List ((String × Bool) × String) → (String × Bool) →
    Option String
  | [], _ => none
  | (k, v) :: rest, key => if k = key then some v else lookupReason rest key

/-- Models `ConfigScanSources.add_assessment_reason`: record the hint's reason under
key (qualified_key, rebuild), but never overwrite an existing entry. -/
def add_assessment_reason (ar : List ((String × Bool) × String))
    (meta : ImageMeta) (hint : RebuildHint) : List ((String × Bool) × String) :=
  let key := (meta.qualified_key, hint.rebuild)
  if (lookupReason ar key).isSome then ar else ar ++ [(key, hint.reason)]

/-- The `ANCESTOR_CHANGING` hint created for each descendant in
`add_image_meta_change`. -/
def ancestorHint (ancestor : ImageMeta) : RebuildHint :=
  { code := .ANCESTOR_CHANGING,
    reason := s!"Ancestor {ancestor.distgit_key} is changing" }

/-- The body of the `for descendant_meta in meta.get_descendants()` loop in
`add_image_meta_change`: add the descendant to the changing set and record
an `ANCESTOR_CHANGING` reason citing `meta`. -/
def add_descendant_step (meta : ImageMeta) (s : ScanState) (d : ImageMeta) :
    ScanState :=
  { changing_image_metas := insertMeta s.changing_image_metas d,
    assessment_reason := add_assessment_reason s.assessment_reason d (ancestorHint meta) }

/-- Models `ConfigScanSources.add_image_meta_change`: add the meta to the changing
set, record its reason, then add every precomputed descendant with an
`ANCESTOR_CHANGING` hint citing this meta.  `descendants` stands for
`meta.get_descendants()` (a precomputed transitive relation supplied by the
metadata catalog). -/
def add_image_meta_change (descendants : ImageMeta → List ImageMeta)
    (st : ScanState) (meta : ImageMeta) (hint : RebuildHint) : ScanState :=
  let st₁ : ScanState :=
    { changing_image_metas := insertMeta st.changing_image_metas meta,
      assessment_reason := add_assessment_reason st.assessment_reason meta hint }
  (descendants meta).foldl (add_descendant_step meta) st₁

/-- The `BUILDER_CHANGING` hint created in `check_builder_images`. -/
def builderHint (member : String) : RebuildHint :=
  { code := .BUILDER_CHANGING,
    reason := s!"Builder group member has changed: {member}" }

/-- The inner `for builder in image_meta.config['from'].builder` loop of
`check_builder_images`: for every builder entry whose member is set and
appears in the snapshot of changing distgit keys, mark the image. -/
def builder_scan_image (descendants : ImageMeta → List ImageMeta)
    (changing_image_dgks : List String) (st : ScanState) (image_meta : ImageMeta) :
    ScanState :=
  if image_meta.distgit_key ∈ changing_image_dgks then st
  else
    image_meta.builders.foldl
      (fun s b =>
        if b ≠ "" ∧ b ∈ changing_image_dgks then
          add_image_meta_change descendants s image_meta (builderHint b)
        else s)
      st

/-- One full pass of the `while True` loop body in `check_builder_images`:
snapshot the changing distgit keys, then scan every image. -/
def builder_pass (descendants : ImageMeta → List ImageMeta)
    (all_image_metas : List ImageMeta) (st : ScanState) : ScanState :=
  let changing_image_dgks := st.changing_image_metas.map (·.distgit_key)
  all_image_metas.foldl (builder_scan_image descendants changing_image_dgks) st

/-- The `while True` loop of `check_builder_images`, with explicit fuel:
after each pass, compare the size of the changing set with the size of the
snapshot taken before the pass and stop when they are equal. -/
def check_builder_images_loop (descendants : ImageMeta → List ImageMeta)
    (all_image_metas : List ImageMeta) : Nat → ScanState → ScanState
  | 0, st => st
  | fuel + 1, st =>
      let changing_image_dgks := st.changing_image_metas.map (·.distgit_key)
      let st' := builder_pass descendants all_image_metas st
      if st'.changing_image_metas.length = changing_image_dgks.length then st'
      else check_builder_images_loop descendants all_image_metas fuel st'

/-- Every meta the builder pass can ever add to the changing set: the
scanned images and their precomputed descendants. -/
def builderUniverse (descendants : ImageMeta → List ImageMeta)
    (all_image_metas : List ImageMeta) : List ImageMeta :=
  all_image_metas ++ all_image_metas.flatMap descendants

/-- How many universe elements are not yet marked changing; an upper bound
on the number of passes that can still grow the changing set. -/
def passBudget (descendants : ImageMeta → List ImageMeta)
    (all_image_metas : List ImageMeta) (st : ScanState) : Nat :=
  ((builderUniverse descendants all_image_metas).filter
    (fun x => decide (x ∉ st.changing_image_metas))).length

/-- Models `ConfigScanSources.check_builder_images`: run the pass loop to its fixed
point.  The fuel `passBudget + 1` is sufficient (proved below): each
recursing pass strictly shrinks the budget, so the loop always exits
through its size comparison. -/
def check_builder_images (descendants : ImageMeta → List ImageMeta)
    (all_image_metas : List ImageMeta) (st : ScanState) : ScanState :=
  check_builder_images_loop descendants all_image_metas
    (passBudget descendants all_image_metas st + 1) st

/-- The changing-set component of `add_image_meta_change`, as a function of
the changing set alone (the marking logic never reads the reason map). -/
def add_changing (descendants : ImageMeta → List ImageMeta)
    (c : List ImageMeta) (meta : ImageMeta) : List ImageMeta :=
  (descendants meta).foldl insertMeta (insertMeta c meta)

/-- The changing-set component of `builder_scan_image`. -/
def builder_scan_image_changing (descendants : ImageMeta → List ImageMeta)
    (changing_image_dgks : List String) (c : List ImageMeta)
    (image_meta : ImageMeta) : List ImageMeta :=
  if image_meta.distgit_key ∈ changing_image_dgks then c
  else
    image_meta.builders.foldl
      (fun c' b =>
        if b ≠ "" ∧ b ∈ changing_image_dgks then
          add_changing descendants c' image_meta
        else c')
      c

/-- The changing-set component of `builder_pass`. -/
def builder_pass_changing (descendants : ImageMeta → List ImageMeta)
    (all_image_metas : List ImageMeta) (c : List ImageMeta) : List ImageMeta :=
  all_image_metas.foldl
    (builder_scan_image_changing descendants (c.map (·.distgit_key))) c

/-- States that `c'` extends `c` by appending only elements drawn from `pool` that were
not already present (what each builder pass does to the changing set). -/
def ListExtends (pool c c' : List ImageMeta) : Prop :=
  ∃ extras, c' = c ++ extras ∧ ∀ e ∈ extras, e ∈ pool ∧ e ∉ c

/-- A non-fatal problem recorded during the scan (`self.issues` entries,
dicts with `name` and `issue`). -/
structure Issue where
  name : String
  issue : String
  deriving DecidableEq, Repr

/-- Git subprocess outcomes for one component's reconciliation:
the exit code of `git pull --ff-only`, the exit code of `git merge`, and
whether `git push origin` (with its bounded retries) succeeded —
`push_ok = false` models `cmd_assert` raising `ChildProcessError` after
exhausting its retries. -/
structure GitOutcomes where
  ff_pull_rc : Nat
  merge_rc : Nat
  push_ok : Bool
  deriving DecidableEq, Repr

/-- Models `ConfigScanSources._try_reconciliation`: try a fast-forward merge, then
a merge commit; on total failure append a manual-reconciliation issue and
return; otherwise (unless dry-run) push, appending a push-failure issue if
the push fails.  Every subprocess failure is handled in-function, so the
result is a plain issue list — this step never raises. -/
def try_reconciliation (git : GitOutcomes) (dry_run : Bool)
    (issues : List Issue) (distgit_key : String) : List Issue :=
  let reconciled := if git.ff_pull_rc = 0 then true else git.merge_rc = 0
  if ¬reconciled then
    issues ++ [⟨distgit_key, "Could not rebase into -priv as it needs manual reconciliation"⟩]
  else if dry_run then issues
  else if git.push_ok then issues
  else issues ++ [⟨distgit_key, "Failed pushing to openshift-priv"⟩]

/-- Models `ConfigScanSources._is_pub_ancestor_of_priv`: interpret the exit code of
`git merge-base --is-ancestor`; a code other than 0 or 1 raises an IOError
(modelled as `Except.error`). -/
def is_pub_ancestor_of_priv (merge_base_rc : Nat) (repo_name : String) :
    Except String Bool :=
  if merge_base_rc = 1 then .ok false
  else if merge_base_rc = 0 then .ok true
  else .error s!"Could not determine ancestry between public and private upstreams for {repo_name}"

/-- Models `ConfigScanSources._do_shas_match`: the two `git ls-remote` calls carry
bounded retries; `none` models `ChildProcessError` after exhaustion, in
which case the function logs a warning and returns `True` (treat the
branches as in sync). -/
def do_shas_match (pub_sha : Option String) (priv_sha : Option String) : Bool :=
  match pub_sha, priv_sha with
  | some pub_commit, some priv_commit => pub_commit = priv_commit
  | _, _ => true

/-- The per-component inputs of one iteration of the `rebase_into_priv`
loop: the guard conditions checked before reconciliation, the `ls-remote`
results, the `merge-base` exit code, and the reconciliation git outcomes. -/
structure RebaseComponentEnv where
  enabled : Bool
  has_content : Bool
  has_public_upstream : Bool
  priv_branch_is_sha : Bool
  priv_url_eq_public : Bool
  pub_sha : Option String
  priv_sha : Option String
  merge_base_rc : Nat
  git : GitOutcomes
  deriving DecidableEq, Repr

/-- One iteration of the `for metadata, public_upstream in upstream_mappings`
loop of `ConfigScanSources.rebase_into_priv`, reduced to its effect on the
issue list.  An `Except.error` models an exception escaping the loop body
(which aborts the whole scan, since the loop has no try/except). -/
def rebase_component (env : RebaseComponentEnv) (dry_run : Bool)
    (issues : List Issue) (distgit_key : String) (repo_name : String) :
    Except String (List Issue) :=
  if ¬env.enabled then .ok issues
  else if ¬env.has_content then .ok issues
  else if ¬env.has_public_upstream then .ok issues
  else if env.priv_branch_is_sha then .ok issues
  else if env.priv_url_eq_public then .ok issues
  else if do_shas_match env.pub_sha env.priv_sha then .ok issues
  else
    match is_pub_ancestor_of_priv env.merge_base_rc repo_name with
    | .error e => .error e
    | .ok true => .ok issues
    | .ok false => .ok (try_reconciliation env.git dry_run issues distgit_key)

/-- One entry of the report's `images` / `rpms` / `rhcos` lists. -/
structure ReportEntry where
  name : String
  changed : Bool
  reason : Option String
  deriving DecidableEq, Repr

/-- The body of the `for image_meta in self.all_image_metas` loop in
`generate_report`: compute `is_changing` and append an entry only when it
holds, with `changed` set to `is_changing` and the reason looked up under
the (qualified_key, is_changing) key. -/
def report_step (changing_dgks : List String)
    (ar : List ((String × Bool) × String)) (results : List ReportEntry)
    (meta : ImageMeta) : List ReportEntry :=
  let dgk := meta.distgit_key
  let is_changing : Bool := decide (dgk ∈ changing_dgks)
  if is_changing then
    results ++ [⟨dgk, is_changing, lookupReason ar (meta.qualified_key, is_changing)⟩]
  else results

/-- The `image_results` (and, identically, `rpm_results`) accumulation in
`ConfigScanSources.generate_report`: walk all metas and append an entry
only when the meta's distgit key is in the changing snapshot. -/
def generate_report_results (changing_metas : List ImageMeta)
    (all_metas : List ImageMeta) (ar : List ((String × Bool) × String)) :
    List ReportEntry :=
  let changing_dgks := changing_metas.map (·.distgit_key)
  all_metas.foldl (report_step changing_dgks ar) []

/-- The status dict built for one (arch, private) pair in
`ConfigScanSources._detect_rhcos_status`; `tagged_id` and `latest_id` are
the results of `_tagged_rhcos_id` and `_latest_rhcos_build_id` (the latter
returns `none` when the RHCOS lookup failed). -/
def rhcos_status (name : String) (tagged_id : Option String)
    (latest_id : Option String) : ReportEntry :=
  match latest_id with
  | none => ⟨name, false, some "could not find an RHCOS build to sync"⟩
  | some latest =>
      if tagged_id = some latest then
        ⟨name, false, some s!"latest RHCOS build is still {latest} -- no change from istag"⟩
      else
        ⟨name, true, some s!"latest RHCOS build is {latest} which differs from istag {tagged_id}"⟩

/-- The body of the `for private in (False, True)` loop in
`_detect_rhcos_status`: build the status and append it only when
`status['changed']` is true. -/
def rhcos_step (version : String)
    (tagged latest : String → Bool → Option String) (arch : String)
    (sts : List ReportEntry) (priv : Bool) : List ReportEntry :=
  let name := version ++ "-" ++ arch ++ (if priv then "-priv" else "")
  let status := rhcos_status name (tagged arch priv) (latest arch priv)
  if status.changed then sts ++ [status] else sts

/-- Models `ConfigScanSources._detect_rhcos_status`: for every arch and privacy
flag, build the status and append it only when `status['changed']` is
true.  `tagged` and `latest` stand for the imagestream lookup and the
RHCOS build finder. -/
def detect_rhcos_status (version : String) (arches : List String)
    (tagged : String → Bool → Option String)
    (latest : String → Bool → Option String) : List ReportEntry :=
  arches.foldl
    (fun statuses arch =>
      [false, true].foldl (rhcos_step version tagged latest arch) statuses)
    []

/-! ## Helper lemmas -/

lemma lookupReason_append_of_some {ar : List ((String × Bool) × String)}
    {k : String × Bool} {r : String} (h : lookupReason ar k = some r)
    (tail : List ((String × Bool) × String)) :
    lookupReason (ar ++ tail) k = some r := by
  induction ar with
  | nil => simp [lookupReason] at h
  | cons hd tl ih =>
      obtain ⟨k', v⟩ := hd
      by_cases hk : k' = k
      · simpa [lookupReason, hk] using by simpa [lookupReason, hk] using h
      · simp only [lookupReason, hk, if_false, List.cons_append] at h ⊢
        exact ih h

lemma lookupReason_add_assessment_persist
    {ar : List ((String × Bool) × String)} {k : String × Bool} {r : String}
    (meta : ImageMeta) (hint : RebuildHint)
    (h : lookupReason ar k = some r) :
    lookupReason (add_assessment_reason ar meta hint) k = some r := by
  unfold add_assessment_reason
  by_cases hs : (lookupReason ar (meta.qualified_key, hint.rebuild)).isSome
  · simpa [hs] using h
  · simp only [hs, if_false]
    exact lookupReason_append_of_some h _

lemma lookupReason_add_assessment_fresh
    {ar : List ((String × Bool) × String)} (meta : ImageMeta)
    (hint : RebuildHint)
    (h : lookupReason ar (meta.qualified_key, hint.rebuild) = none) :
    lookupReason (add_assessment_reason ar meta hint)
      (meta.qualified_key, hint.rebuild) = some hint.reason := by
  unfold add_assessment_reason
  simp only [h, Option.isSome_none, Bool.false_eq_true, if_false]
  induction ar with
  | nil => simp [lookupReason]
  | cons hd tl ih =>
      obtain ⟨k', v⟩ := hd
      by_cases hk : k' = (meta.qualified_key, hint.rebuild)
      · simp [lookupReason, hk] at h
      · simp only [lookupReason, hk, if_false, List.cons_append] at h ⊢
        exact ih h

lemma lookupReason_append_of_none {ar : List ((String × Bool) × String)}
    {k : String × Bool} (h : lookupReason ar k = none)
    (tail : List ((String × Bool) × String)) :
    lookupReason (ar ++ tail) k = lookupReason tail k := by
  induction ar with
  | nil => simp
  | cons hd tl ih =>
      obtain ⟨k', v⟩ := hd
      by_cases hk : k' = k
      · simp [lookupReason, hk] at h
      · simp only [lookupReason, hk, if_false, List.cons_append] at h ⊢
        exact ih h

lemma lookupReason_add_assessment_other
    {ar : List ((String × Bool) × String)} (meta : ImageMeta)
    (hint : RebuildHint) {k : String × Bool}
    (h : k ≠ (meta.qualified_key, hint.rebuild)) :
    lookupReason (add_assessment_reason ar meta hint) k = lookupReason ar k := by
  unfold add_assessment_reason
  by_cases hs : (lookupReason ar (meta.qualified_key, hint.rebuild)).isSome
  · simp [hs]
  · simp only [Bool.not_eq_true] at hs
    simp only [hs, Bool.false_eq_true, if_false]
    cases hl : lookupReason ar k with
    | some r => exact lookupReason_append_of_some hl _
    | none =>
        rw [lookupReason_append_of_none hl]
        simp [lookupReason, Ne.symm h]

/-! ## C1: the failed-build backoff window -/

/-- Claim C1 counterexample: The claim states that when `now - T` equals the
threshold exactly (here `T = 0`, `now = 6 * 3600` seconds, default
threshold of 6 hours), the result is `LAST_BUILD_FAILED` with
rebuild = true; the code compares with strict `<`
(`last_attempt_time + timedelta(hours=rebuild_interval) < now`) and
returns `DELAYING_NEXT_ATTEMPT` with rebuild = false instead. -/
theorem c1_boundary_counterexample :
    (6 * 3600 : Int) - 0 ≥ (DEFAULT_THRESHOLD_HOURS : Int) * 3600 ∧
    (handle_missing_upstream_commit_build none (6 * 3600)
        (some ⟨"comp-1.0-1", 0, "abc1234"⟩) "abc1234def").code =
      RebuildHintCode.DELAYING_NEXT_ATTEMPT ∧
    (handle_missing_upstream_commit_build none (6 * 3600)
        (some ⟨"comp-1.0-1", 0, "abc1234"⟩) "abc1234def").rebuild = false := by
  refine ⟨by decide, ?_, ?_⟩ <;> rfl

/-- Claim C1 (amended): For a recorded failed build attempt at time `T`,
`handle_missing_upstream_commit_build` returns `LAST_BUILD_FAILED` with
rebuild = true exactly when `now - T` is *strictly greater* than the
group-configured threshold (default 6 hours), and `DELAYING_NEXT_ATTEMPT`
with rebuild = false when `now - T ≤ threshold` — including the case of
exact equality. -/
theorem c1_backoff_window (threshold_hours_cfg : Option Nat) (now : Int)
    (failed_build : KonfluxBuildRecord) (hash : String) :
    let thr := resolveThresholdHours threshold_hours_cfg
    let r := handle_missing_upstream_commit_build threshold_hours_cfg now
      (some failed_build) hash
    (now - failed_build.start_time > (thr : Int) * 3600 →
      r.code = RebuildHintCode.LAST_BUILD_FAILED ∧ r.rebuild = true) ∧
    (now - failed_build.start_time ≤ (thr : Int) * 3600 →
      r.code = RebuildHintCode.DELAYING_NEXT_ATTEMPT ∧ r.rebuild = false) := by
  intro thr r
  unfold_let r
  unfold handle_missing_upstream_commit_build
  constructor
  · intro h
    have hc : failed_build.start_time + (thr : Int) * 3600 < now := by omega
    simp [hc, RebuildHint.rebuild, RebuildHintCode.needsRebuild]
  · intro h
    have hc : ¬ failed_build.start_time + (thr : Int) * 3600 < now := by omega
    simp [hc, RebuildHint.rebuild, RebuildHintCode.needsRebuild]

/-- Witness for `c1_backoff_window` at a concrete input (threshold left
unconfigured, failed attempt at `T = 0`, `now = 7` hours). -/
theorem c1_backoff_window_witness :
    (handle_missing_upstream_commit_build none (7 * 3600)
        (some ⟨"comp-1.0-1", 0, "abc"⟩) "abc").code =
      RebuildHintCode.LAST_BUILD_FAILED := by
  have h := (c1_backoff_window none (7 * 3600) ⟨"comp-1.0-1", 0, "abc"⟩
    "abc").1 (by decide)
  exact h.1

/-! ## C3: commit-matching build vs latest overall build -/

/-- Claim C3. When a latest build exists and some build's source commit
equals the current upstream commit, `target_needs_rebuild` returns
`UPSTREAM_COMMIT_MISMATCH` with rebuild = true when the two nvrs differ,
and `BUILD_IS_UP_TO_DATE` with rebuild = false when they are equal. -/
theorem c3_commit_mismatch (db : BuildDb) (detect_upstream : Unit → String)
    (threshold_hours_cfg : Option Nat) (now : Int) (component_name : String)
    (sp : SearchParams) (latest_build upstream_commit_build : KonfluxBuildRecord)
    (hlatest : db.latest sp = some latest_build)
    (hcommit : db.latestWithCommit sp (detect_upstream ()) =
      some upstream_commit_build) :
    let r := target_needs_rebuild db detect_upstream threshold_hours_cfg now
      component_name sp
    (latest_build.nvr ≠ upstream_commit_build.nvr →
      r.code = RebuildHintCode.UPSTREAM_COMMIT_MISMATCH ∧ r.rebuild = true) ∧
    (latest_build.nvr = upstream_commit_build.nvr →
      r.code = RebuildHintCode.BUILD_IS_UP_TO_DATE ∧ r.rebuild = false) := by
  intro r
  unfold_let r
  unfold target_needs_rebuild
  rw [hlatest]
  simp only [hcommit]
  constructor
  · intro hne
    simp [hne, RebuildHint.rebuild, RebuildHintCode.needsRebuild]
  · intro heq
    simp [heq, RebuildHint.rebuild, RebuildHintCode.needsRebuild]

/-- Witness for `c3_commit_mismatch`: a two-record store where the latest
build's nvr differs from the commit-matching build's nvr. -/
theorem c3_commit_mismatch_witness :
    (target_needs_rebuild
      ⟨fun _ => some ⟨"c-2.0-1", 50, "ffff999"⟩,
       fun _ _ => some ⟨"c-1.0-1", 10, "abc1234"⟩,
       fun _ _ => none⟩
      (fun _ => "abc1234") none 0 "c"
      ⟨"c", "g", "stream", none⟩).code =
    RebuildHintCode.UPSTREAM_COMMIT_MISMATCH := by
  have h := (c3_commit_mismatch
    ⟨fun _ => some ⟨"c-2.0-1", 50, "ffff999"⟩,
     fun _ _ => some ⟨"c-1.0-1", 10, "abc1234"⟩,
     fun _ _ => none⟩
    (fun _ => "abc1234") none 0 "c"
    ⟨"c", "g", "stream", none⟩
    ⟨"c-2.0-1", 50, "ffff999"⟩ ⟨"c-1.0-1", 10, "abc1234"⟩ rfl rfl).1
    (by decide)
  exact h.1

/-! ## C5: first-reason-wins -/

/-- Claim C5. Once a reason is recorded in the assessment-reason map for a
given (qualified key, rebuild-outcome) pair, a later
`add_assessment_reason` call — for any meta and hint — leaves the stored
reason unchanged. -/
theorem c5_first_reason_wins (ar : List ((String × Bool) × String))
    (meta : ImageMeta) (hint : RebuildHint) (k : String × Bool) (r : String)
    (h : lookupReason ar k = some r) :
    lookupReason (add_assessment_reason ar meta hint) k = some r :=
  lookupReason_add_assessment_persist meta hint h

/-- Witness for `c5_first_reason_wins`: a map holding a first reason for
("x", true) keeps it after a second cause records a reason for the same
key. -/
theorem c5_first_reason_wins_witness :
    lookupReason
      (add_assessment_reason [(("x", true), "first cause")]
        ⟨"x-dgk", "x", []⟩ ⟨.NEW_UPSTREAM_COMMIT, "second cause"⟩)
      ("x", true) = some "first cause" :=
  c5_first_reason_wins [(("x", true), "first cause")]
    ⟨"x-dgk", "x", []⟩ ⟨.NEW_UPSTREAM_COMMIT, "second cause"⟩
    ("x", true) "first cause" (by decide)

/-! ## C8: no latest build -/

/-- Claim C8. When the build-record store has no latest build at all for the
search parameters, `target_needs_rebuild` returns `NO_LATEST_BUILD` with
rebuild = true; the result is moreover identical for every upstream
resolver, threshold configuration and clock — the upstream source is not
consulted on this path. -/
theorem c8_no_latest_build (db : BuildDb) (detect_upstream : Unit → String)
    (threshold_hours_cfg : Option Nat) (now : Int) (component_name : String)
    (sp : SearchParams) (h : db.latest sp = none) :
    let r := target_needs_rebuild db detect_upstream threshold_hours_cfg now
      component_name sp
    r.code = RebuildHintCode.NO_LATEST_BUILD ∧ r.rebuild = true ∧
    ∀ (detect_upstream' : Unit → String) (cfg' : Option Nat) (now' : Int),
      target_needs_rebuild db detect_upstream' cfg' now' component_name sp
        = r := by
  intro r
  unfold_let r
  unfold target_needs_rebuild
  rw [h]
  exact ⟨rfl, rfl, fun _ _ _ => rfl⟩

/-- Witness for `c8_no_latest_build`: an empty store. -/
theorem c8_no_latest_build_witness :
    (target_needs_rebuild ⟨fun _ => none, fun _ _ => none, fun _ _ => none⟩
      (fun _ => "abc") none 0 "c" ⟨"c", "g", "stream", none⟩).code =
    RebuildHintCode.NO_LATEST_BUILD :=
  (c8_no_latest_build ⟨fun _ => none, fun _ _ => none, fun _ _ => none⟩
    (fun _ => "abc") none 0 "c" ⟨"c", "g", "stream", none⟩ rfl).1

/-! ## C10: ls-remote failure is treated as in-sync -/

/-- Claim C10. If either `git ls-remote` (public or private) fails after its
bounded retries, `_do_shas_match` returns true, and the per-component
rebase step — having passed all its guards — skips reconciliation: the
issue list is returned unchanged and no error is raised, regardless of the
remaining git outcomes. -/
theorem c10_shas_match_on_failure (pub_sha priv_sha : Option String)
    (merge_base_rc : Nat) (git : GitOutcomes) (dry_run : Bool)
    (issues : List Issue) (distgit_key repo_name : String)
    (h : pub_sha = none ∨ priv_sha = none) :
    do_shas_match pub_sha priv_sha = true ∧
    rebase_component
      ⟨true, true, true, false, false, pub_sha, priv_sha, merge_base_rc, git⟩
      dry_run issues distgit_key repo_name = .ok issues := by
  have hmatch : do_shas_match pub_sha priv_sha = true := by
    rcases h with h | h
    · subst h; simp [do_shas_match]
    · subst h; cases pub_sha <;> simp [do_shas_match]
  refine ⟨hmatch, ?_⟩
  simp [rebase_component, hmatch]

/-- Witness for `c10_shas_match_on_failure`: the public `ls-remote` fails,
the private one succeeds, and the merge-base outcome would otherwise have
raised. -/
theorem c10_shas_match_on_failure_witness :
    rebase_component
      ⟨true, true, true, false, false, none, some "bbb", 2, ⟨1, 1, false⟩⟩
      false [] "comp" "repo" = .ok [] :=
  (c10_shas_match_on_failure none (some "bbb") 2 ⟨1, 1, false⟩ false []
    "comp" "repo" (Or.inl rfl)).2

/-! ## C2: reconciliation failure handling -/

/-- Claim C2 counterexample: The claim asserts that no failure on the
per-component reconciliation path raises an error that aborts the whole
scan.  But when `git merge-base --is-ancestor` exits with a status other
than 0 or 1 (here 2), `_is_pub_ancestor_of_priv` raises an `IOError`,
which `rebase_into_priv` does not catch: the per-component path errors out
instead of degrading to an issue.  (Both remote SHAs resolve, and differ,
so the path reaches the ancestry check.) -/
theorem c2_ancestry_error_counterexample :
    rebase_component
      ⟨true, true, true, false, false, some "aaa1111", some "bbb2222", 2,
        ⟨0, 0, true⟩⟩
      false [] "comp" "repo" =
    .error "Could not determine ancestry between public and private upstreams for repo" := by
  rfl

/-- Claim C2 (amended): Failure of the fast-forward merge, of the merge
commit, or of the push appends an issue entry and raises nothing — the
reconciliation step itself returns a plain issue list.  However, the
per-component path is not raise-free as a whole: it errors exactly when
the ancestry check's `git merge-base` exits with a status other than 0
or 1. -/
theorem c2_reconciliation_failures (git : GitOutcomes) (dry_run : Bool)
    (issues : List Issue) (distgit_key : String) :
    ((git.ff_pull_rc ≠ 0 ∧ git.merge_rc ≠ 0) →
      try_reconciliation git dry_run issues distgit_key =
        issues ++ [⟨distgit_key, "Could not rebase into -priv as it needs manual reconciliation"⟩]) ∧
    ((git.ff_pull_rc = 0 ∨ git.merge_rc = 0) → dry_run = false →
      git.push_ok = false →
      try_reconciliation git dry_run issues distgit_key =
        issues ++ [⟨distgit_key, "Failed pushing to openshift-priv"⟩]) ∧
    (∀ (env : RebaseComponentEnv) (issues' : List Issue)
        (dgk repo_name e : String),
      rebase_component env dry_run issues' dgk repo_name = .error e →
      env.merge_base_rc ≠ 0 ∧ env.merge_base_rc ≠ 1) := by
  refine ⟨?_, ?_, ?_⟩
  · rintro ⟨hff, hm⟩
    simp [try_reconciliation, hff, hm]
  · intro hrec hdry hpush
    have : (if git.ff_pull_rc = 0 then true else decide (git.merge_rc = 0)) = true := by
      rcases hrec with h | h <;> simp [h]
    simp [try_reconciliation, this, hdry, hpush]
  · intro env issues' dgk repo_name e herr
    constructor
    · intro h0
      unfold rebase_component at herr
      rw [h0] at herr
      simp only [is_pub_ancestor_of_priv] at herr
      split_ifs at herr
    · intro h1
      unfold rebase_component at herr
      rw [h1] at herr
      simp only [is_pub_ancestor_of_priv] at herr
      split_ifs at herr

/-- Witness for `c2_reconciliation_failures`: both merge attempts fail
(exit code 1 each), so the manual-reconciliation issue is appended. -/
theorem c2_reconciliation_failures_witness :
    try_reconciliation ⟨1, 1, true⟩ false [] "comp" =
      [⟨"comp", "Could not rebase into -priv as it needs manual reconciliation"⟩] :=
  (c2_reconciliation_failures ⟨1, 1, true⟩ false [] "comp").1
    ⟨by decide, by decide⟩

/-! ## C7: multi-target evaluation order and short-circuit -/

/-- Claim C7. For a component with targets `t :: ts`, the loop evaluates
targets in declaration order and stops at the first whose hint has
rebuild = true or code `DELAYING_NEXT_ATTEMPT` (so a delaying hint, though
it carries rebuild = false, is returned standing in for the component);
the targets actually evaluated are exactly the prefix up to and including
that first trigger, and when no target triggers the last target's hint is
returned after evaluating them all. -/
theorem c7_multi_target_short_circuit (evalTarget : String → RebuildHint)
    (t : String) (ts : List String) :
    (does_meta_need_rebuild_targets evalTarget t ts).2 =
      (t :: ts).take
        ((t :: ts).findIdx (fun x => hintTriggers (evalTarget x)) + 1) ∧
    (does_meta_need_rebuild_targets evalTarget t ts).1 =
      (match (t :: ts).find? (fun x => hintTriggers (evalTarget x)) with
       | some x => evalTarget x
       | none => evalTarget ((t :: ts).getLast (List.cons_ne_nil t ts))) := by
  induction ts generalizing t with
  | nil =>
      by_cases hp : hintTriggers (evalTarget t)
      · have hfind : (t :: ([] : List String)).find?
            (fun x => hintTriggers (evalTarget x)) = some t :=
          List.find?_cons_of_pos _ hp
        simp [does_meta_need_rebuild_targets, hp, List.findIdx_cons, hfind]
      · simp only [Bool.not_eq_true] at hp
        have hnp : ¬ (fun x => hintTriggers (evalTarget x)) t = true := by
          simp [hp]
        have hfind : (t :: ([] : List String)).find?
            (fun x => hintTriggers (evalTarget x)) = List.find? _ [] :=
          List.find?_cons_of_neg _ hnp
        simp [does_meta_need_rebuild_targets, hp, List.findIdx_cons, hfind]
  | cons t' ts' ih =>
      by_cases hp : hintTriggers (evalTarget t)
      · have hfind : (t :: t' :: ts').find?
            (fun x => hintTriggers (evalTarget x)) = some t :=
          List.find?_cons_of_pos _ hp
        simp [does_meta_need_rebuild_targets, hp, List.findIdx_cons, hfind]
      · simp only [Bool.not_eq_true] at hp
        have hnp : ¬ (fun x => hintTriggers (evalTarget x)) t = true := by
          simp [hp]
        have hfind : (t :: t' :: ts').find?
            (fun x => hintTriggers (evalTarget x)) =
            (t' :: ts').find? (fun x => hintTriggers (evalTarget x)) :=
          List.find?_cons_of_neg _ hnp
        have h := ih t'
        simp only [does_meta_need_rebuild_targets, hp, Bool.false_eq_true,
          if_false]
        constructor
        · rw [List.findIdx_cons]
          simp only [hp, cond_false]
          rw [List.take_succ_cons]
          exact congrArg (t :: ·) h.1
        · rw [hfind, List.getLast_cons (List.cons_ne_nil t' ts')]
          exact h.2

/-! ## C4: ancestor propagation in add_image_meta_change -/

lemma mem_insertMeta_self (l : List ImageMeta) (m : ImageMeta) :
    m ∈ insertMeta l m := by
  unfold insertMeta
  by_cases h : m ∈ l <;> simp [h]

lemma mem_insertMeta_of_mem {l : List ImageMeta} {x : ImageMeta}
    (m : ImageMeta) (h : x ∈ l) : x ∈ insertMeta l m := by
  unfold insertMeta
  by_cases hm : m ∈ l <;> simp [hm, h]

lemma descfold_changing_mono (meta : ImageMeta) {x : ImageMeta} :
    ∀ (ds : List ImageMeta) (s : ScanState),
      x ∈ s.changing_image_metas →
      x ∈ (ds.foldl (add_descendant_step meta) s).changing_image_metas := by
  intro ds
  induction ds with
  | nil => intro s h; simpa using h
  | cons d₀ rest ih =>
      intro s h
      simp only [List.foldl_cons]
      exact ih _ (mem_insertMeta_of_mem d₀ h)

lemma descfold_changing_mem (meta : ImageMeta) {d : ImageMeta} :
    ∀ (ds : List ImageMeta) (s : ScanState), d ∈ ds →
      d ∈ (ds.foldl (add_descendant_step meta) s).changing_image_metas := by
  intro ds
  induction ds with
  | nil => intro s h; simp at h
  | cons d₀ rest ih =>
      intro s h
      simp only [List.foldl_cons]
      rcases List.mem_cons.mp h with h | h
      · subst h
        exact descfold_changing_mono meta rest _
          (mem_insertMeta_self s.changing_image_metas d)
      · exact ih _ h

lemma descfold_reason_persist (meta : ImageMeta) {k : String × Bool}
    {r : String} :
    ∀ (ds : List ImageMeta) (s : ScanState),
      lookupReason s.assessment_reason k = some r →
      lookupReason (ds.foldl (add_descendant_step meta) s).assessment_reason k
        = some r := by
  intro ds
  induction ds with
  | nil => intro s h; simpa using h
  | cons d₀ rest ih =>
      intro s h
      simp only [List.foldl_cons]
      exact ih _ (lookupReason_add_assessment_persist d₀ (ancestorHint meta) h)

lemma descfold_reason_set (meta : ImageMeta) {d : ImageMeta} :
    ∀ (ds : List ImageMeta) (s : ScanState), d ∈ ds →
      (lookupReason s.assessment_reason (d.qualified_key, true) = none ∨
       lookupReason s.assessment_reason (d.qualified_key, true) =
         some (ancestorHint meta).reason) →
      lookupReason (ds.foldl (add_descendant_step meta) s).assessment_reason
        (d.qualified_key, true) = some (ancestorHint meta).reason := by
  intro ds
  induction ds with
  | nil => intro s h; simp at h
  | cons d₀ rest ih =>
      intro s hmem hdisj
      simp only [List.foldl_cons]
      have hrw : (ancestorHint meta).rebuild = true := rfl
      rcases List.mem_cons.mp hmem with heq | hmem'
      · subst heq
        refine descfold_reason_persist meta rest _ ?_
        rcases hdisj with hnone | hsome
        · have := lookupReason_add_assessment_fresh d (ancestorHint meta)
            (by rw [hrw]; exact hnone)
          simpa [add_descendant_step, hrw] using this
        · exact lookupReason_add_assessment_persist d (ancestorHint meta) hsome
      · refine ih _ hmem' ?_
        by_cases hk : d.qualified_key = d₀.qualified_key
        · right
          rcases hdisj with hnone | hsome
          · have := lookupReason_add_assessment_fresh d₀ (ancestorHint meta)
              (by rw [hrw, ← hk]; exact hnone)
            simpa [add_descendant_step, hrw, hk] using this
          · exact lookupReason_add_assessment_persist d₀ (ancestorHint meta) hsome
        · have hne : (d.qualified_key, true) ≠
              (d₀.qualified_key, (ancestorHint meta).rebuild) := by
            simp [hk]
          have heq2 : lookupReason
              (add_descendant_step meta s d₀).assessment_reason
              (d.qualified_key, true) =
              lookupReason s.assessment_reason (d.qualified_key, true) :=
            lookupReason_add_assessment_other d₀ (ancestorHint meta) hne
          rw [heq2]
          exact hdisj

/-- Claim C4. Whenever a component is marked changing via
`add_image_meta_change`, every one of its precomputed descendants — no
edge relation between ancestor and descendant is assumed — is added to the
changing set in the same call, and (when no reason was previously recorded
for the descendant's rebuild=true outcome, and the ancestor's own
recording does not collide with that key) the recorded reason is the
`ANCESTOR_CHANGING` reason citing the ancestor's distgit key. -/
theorem c4_ancestor_propagation (descendants : ImageMeta → List ImageMeta)
    (st : ScanState) (meta : ImageMeta) (hint : RebuildHint) (d : ImageMeta)
    (hd : d ∈ descendants meta) :
    d ∈ (add_image_meta_change descendants st meta hint).changing_image_metas ∧
    (lookupReason st.assessment_reason (d.qualified_key, true) = none →
     ¬(meta.qualified_key = d.qualified_key ∧ hint.rebuild = true) →
     lookupReason
       (add_image_meta_change descendants st meta hint).assessment_reason
       (d.qualified_key, true) =
     some ("Ancestor " ++ meta.distgit_key ++ " is changing")) := by
  constructor
  · exact descfold_changing_mem meta (descendants meta) _ hd
  · intro hfresh hnc
    have hreason : (ancestorHint meta).reason =
        "Ancestor " ++ meta.distgit_key ++ " is changing" := rfl
    rw [← hreason]
    refine descfold_reason_set meta (descendants meta) _ hd (Or.inl ?_)
    have hne : (d.qualified_key, true) ≠
        (meta.qualified_key, hint.rebuild) := by
      intro hcontra
      exact hnc ⟨by rw [← (Prod.mk.injEq _ _ _ _).mp hcontra |>.1],
        ((Prod.mk.injEq _ _ _ _).mp hcontra).2.symm⟩
    rw [lookupReason_add_assessment_other meta hint hne]
    exact hfresh

/-- Witness for `c4_ancestor_propagation`: marking `b` propagates to its
catalog descendant `d`, which has no builder edge to `b`. -/
theorem c4_ancestor_propagation_witness :
    let descB : ImageMeta := ⟨"d", "image/d", []⟩
    let metaB : ImageMeta := ⟨"b", "image/b", []⟩
    let desc : ImageMeta → List ImageMeta :=
      fun m => if m.distgit_key = "b" then [⟨"d", "image/d", []⟩] else []
    descB ∈ (add_image_meta_change desc ⟨[], []⟩ metaB
      ⟨.NEW_UPSTREAM_COMMIT, "new commit"⟩).changing_image_metas ∧
    lookupReason (add_image_meta_change desc ⟨[], []⟩ metaB
      ⟨.NEW_UPSTREAM_COMMIT, "new commit"⟩).assessment_reason
      ("image/d", true) = some "Ancestor b is changing" := by
  intro descB metaB desc
  have h := c4_ancestor_propagation desc ⟨[], []⟩ metaB
    ⟨.NEW_UPSTREAM_COMMIT, "new commit"⟩ descB (by decide)
  exact ⟨h.1, h.2 (by decide) (by decide)⟩

/-! ## C9: the report lists only changed entries -/

lemma report_step_invariant (changing_dgks : List String)
    (ar : List ((String × Bool) × String)) (acc : List ReportEntry)
    (meta : ImageMeta) {e : ReportEntry}
    (h : e ∈ report_step changing_dgks ar acc meta) :
    e ∈ acc ∨ (e.changed = true ∧ e.name ∈ changing_dgks) := by
  unfold report_step at h
  by_cases hc : decide (meta.distgit_key ∈ changing_dgks) = true
  · rw [if_pos hc] at h
    rcases List.mem_append.mp h with h | h
    · exact Or.inl h
    · right
      simp only [List.mem_singleton] at h
      subst h
      exact ⟨hc, by simpa using hc⟩
  · rw [if_neg hc] at h
    exact Or.inl h

lemma report_fold_invariant (changing_dgks : List String)
    (ar : List ((String × Bool) × String)) :
    ∀ (metas : List ImageMeta) (acc : List ReportEntry) (e : ReportEntry),
      e ∈ metas.foldl (report_step changing_dgks ar) acc →
      e ∈ acc ∨ (e.changed = true ∧ e.name ∈ changing_dgks) := by
  intro metas
  induction metas with
  | nil => intro acc e h; exact Or.inl (by simpa using h)
  | cons m rest ih =>
      intro acc e h
      simp only [List.foldl_cons] at h
      rcases ih _ e h with h' | h'
      · exact report_step_invariant changing_dgks ar acc m h'
      · exact Or.inr h'

lemma rhcos_step_invariant (version : String)
    (tagged latest : String → Bool → Option String) (arch : String)
    (sts : List ReportEntry) (priv : Bool) {e : ReportEntry}
    (h : e ∈ rhcos_step version tagged latest arch sts priv) :
    e ∈ sts ∨ e.changed = true := by
  unfold rhcos_step at h
  by_cases hc : (rhcos_status (version ++ "-" ++ arch ++
      (if priv then "-priv" else "")) (tagged arch priv)
      (latest arch priv)).changed = true
  · rw [if_pos hc] at h
    rcases List.mem_append.mp h with h | h
    · exact Or.inl h
    · right
      simp only [List.mem_singleton] at h
      subst h
      exact hc
  · rw [if_neg hc] at h
    exact Or.inl h

lemma rhcos_fold_invariant (version : String)
    (tagged latest : String → Bool → Option String) :
    ∀ (arches : List String) (acc : List ReportEntry) (e : ReportEntry),
      e ∈ arches.foldl
        (fun statuses arch =>
          [false, true].foldl (rhcos_step version tagged latest arch) statuses)
        acc →
      e ∈ acc ∨ e.changed = true := by
  intro arches
  induction arches with
  | nil => intro acc e h; exact Or.inl (by simpa using h)
  | cons a rest ih =>
      intro acc e h
      simp only [List.foldl_cons] at h
      rcases ih _ e h with h' | h'
      · simp only [List.foldl_cons, List.foldl_nil] at h'
        rcases rhcos_step_invariant version tagged latest a _ true h' with
          h'' | h''
        · exact rhcos_step_invariant version tagged latest a _ false h''
        · exact Or.inr h''
      · exact Or.inr h'

/-- Claim C9. Every entry the report places in the images list (and,
identically, the rpms list) has `changed = true`, and a component whose
distgit key is not in the changing snapshot contributes no entry at all;
every entry `_detect_rhcos_status` returns likewise has `changed = true`
(streams with no looked-up build or an up-to-date build are omitted, not
reported unchanged). -/
theorem c9_report_only_changed (changing_metas all_metas : List ImageMeta)
    (ar : List ((String × Bool) × String)) (version : String)
    (arches : List String) (tagged latest : String → Bool → Option String) :
    (∀ e ∈ generate_report_results changing_metas all_metas ar,
      e.changed = true) ∧
    (∀ dgk, dgk ∉ changing_metas.map (·.distgit_key) →
      ∀ e ∈ generate_report_results changing_metas all_metas ar,
        e.name ≠ dgk) ∧
    (∀ e ∈ detect_rhcos_status version arches tagged latest,
      e.changed = true) := by
  refine ⟨?_, ?_, ?_⟩
  · intro e he
    rcases report_fold_invariant _ ar all_metas [] e he with h | h
    · simp at h
    · exact h.1
  · intro dgk hdgk e he hname
    rcases report_fold_invariant _ ar all_metas [] e he with h | h
    · simp at h
    · rw [hname] at h
      exact hdgk h.2
  · intro e he
    rcases rhcos_fold_invariant version tagged latest arches [] e he with h | h
    · simp at h
    · exact h

/-- Witness for `c9_report_only_changed`: a concrete report with one
changing image out of two, and one changed RHCOS stream. -/
theorem c9_report_only_changed_witness :
    (∀ e ∈ generate_report_results [⟨"a", "image/a", []⟩]
      [⟨"a", "image/a", []⟩, ⟨"b", "image/b", []⟩]
      [(("image/a", true), "upstream change")], e.changed = true) ∧
    (∀ e ∈ detect_rhcos_status "4.18" ["x86_64"]
      (fun _ _ => some "old-build") (fun _ _ => some "new-build"),
      e.changed = true) := by
  have h := c9_report_only_changed [⟨"a", "image/a", []⟩]
    [⟨"a", "image/a", []⟩, ⟨"b", "image/b", []⟩]
    [(("image/a", true), "upstream change")] "4.18" ["x86_64"]
    (fun _ _ => some "old-build") (fun _ _ => some "new-build")
  exact ⟨h.1, h.2.2⟩

/-! ## C6: the builder fixed-point pass -/

lemma ListExtends.refl (pool c : List ImageMeta) : ListExtends pool c c :=
  ⟨[], by simp, by simp⟩

lemma ListExtends.trans {pool c c' c'' : List ImageMeta}
    (h1 : ListExtends pool c c') (h2 : ListExtends pool c' c'') :
    ListExtends pool c c'' := by
  obtain ⟨e1, he1, hp1⟩ := h1
  obtain ⟨e2, he2, hp2⟩ := h2
  refine ⟨e1 ++ e2, by rw [he2, he1, List.append_assoc], ?_⟩
  intro e he
  rcases List.mem_append.mp he with h | h
  · exact hp1 e h
  · obtain ⟨hpool, hnc'⟩ := hp2 e h
    refine ⟨hpool, fun hc => hnc' ?_⟩
    rw [he1]
    exact List.mem_append_left _ hc

lemma ListExtends.subset {pool c c' : List ImageMeta}
    (h : ListExtends pool c c') {x : ImageMeta} (hx : x ∈ c) : x ∈ c' := by
  obtain ⟨e, he, -⟩ := h
  rw [he]
  exact List.mem_append_left _ hx

lemma insertMeta_extends (pool c : List ImageMeta) {m : ImageMeta}
    (hm : m ∈ pool) : ListExtends pool c (insertMeta c m) := by
  unfold insertMeta
  by_cases h : m ∈ c
  · rw [if_pos h]; exact ListExtends.refl pool c
  · rw [if_neg h]
    exact ⟨[m], rfl, by simpa [hm] using h⟩

lemma foldl_insertMeta_extends (pool : List ImageMeta) :
    ∀ (ds : List ImageMeta) (c : List ImageMeta), (∀ x ∈ ds, x ∈ pool) →
      ListExtends pool c (ds.foldl insertMeta c) := by
  intro ds
  induction ds with
  | nil => intro c _; exact ListExtends.refl pool c
  | cons d rest ih =>
      intro c hsub
      simp only [List.foldl_cons]
      exact ListExtends.trans
        (insertMeta_extends pool c (hsub d (List.mem_cons_self d rest)))
        (ih _ (fun x hx => hsub x (List.mem_cons_of_mem d hx)))

lemma add_changing_extends (descendants : ImageMeta → List ImageMeta)
    (pool c : List ImageMeta) {m : ImageMeta} (hm : m ∈ pool)
    (hdesc : ∀ x ∈ descendants m, x ∈ pool) :
    ListExtends pool c (add_changing descendants c m) := by
  unfold add_changing
  exact ListExtends.trans (insertMeta_extends pool c hm)
    (foldl_insertMeta_extends pool (descendants m) _ hdesc)

lemma builder_scan_image_changing_extends
    (descendants : ImageMeta → List ImageMeta) (pool : List ImageMeta)
    (dgks : List String) (c : List ImageMeta) {im : ImageMeta}
    (him : im ∈ pool) (hdesc : ∀ x ∈ descendants im, x ∈ pool) :
    ListExtends pool c (builder_scan_image_changing descendants dgks c im) := by
  unfold builder_scan_image_changing
  by_cases hskip : im.distgit_key ∈ dgks
  · rw [if_pos hskip]; exact ListExtends.refl pool c
  · rw [if_neg hskip]
    generalize im.builders = bs
    induction bs generalizing c with
    | nil => exact ListExtends.refl pool c
    | cons b rest ih =>
        simp only [List.foldl_cons]
        by_cases hb : b ≠ "" ∧ b ∈ dgks
        · rw [if_pos hb]
          exact ListExtends.trans
            (add_changing_extends descendants pool c him hdesc) (ih _)
        · rw [if_neg hb]
          exact ih c

lemma builder_pass_changing_extends (descendants : ImageMeta → List ImageMeta)
    (all_image_metas : List ImageMeta) (c : List ImageMeta) :
    ListExtends (builderUniverse descendants all_image_metas) c
      (builder_pass_changing descendants all_image_metas c) := by
  unfold builder_pass_changing
  generalize hdgks : c.map (·.distgit_key) = dgks
  have : ∀ (l : List ImageMeta), (∀ x ∈ l, x ∈ all_image_metas) →
      ∀ (c' : List ImageMeta),
      ListExtends (builderUniverse descendants all_image_metas) c'
        (l.foldl (builder_scan_image_changing descendants dgks) c') := by
    intro l
    induction l with
    | nil => intro _ c'; exact ListExtends.refl _ c'
    | cons im rest ih =>
        intro hsub c'
        simp only [List.foldl_cons]
        have him : im ∈ builderUniverse descendants all_image_metas :=
          List.mem_append_left _ (hsub im (List.mem_cons_self im rest))
        have hdesc : ∀ x ∈ descendants im,
            x ∈ builderUniverse descendants all_image_metas := by
          intro x hx
          refine List.mem_append_right _ ?_
          exact List.mem_flatMap.mpr
            ⟨im, hsub im (List.mem_cons_self im rest), hx⟩
        exact ListExtends.trans
          (builder_scan_image_changing_extends descendants _ dgks c' him hdesc)
          (ih (fun x hx => hsub x (List.mem_cons_of_mem im hx)) _)
  exact this all_image_metas (fun x hx => hx) c

lemma descfold_changing_proj (meta : ImageMeta) :
    ∀ (ds : List ImageMeta) (s : ScanState),
      (ds.foldl (add_descendant_step meta) s).changing_image_metas =
        ds.foldl insertMeta s.changing_image_metas := by
  intro ds
  induction ds with
  | nil => intro s; rfl
  | cons d rest ih =>
      intro s
      simp only [List.foldl_cons]
      exact ih _

lemma add_image_meta_change_changing_proj
    (descendants : ImageMeta → List ImageMeta) (st : ScanState)
    (meta : ImageMeta) (hint : RebuildHint) :
    (add_image_meta_change descendants st meta hint).changing_image_metas =
      add_changing descendants st.changing_image_metas meta := by
  unfold add_image_meta_change add_changing
  exact descfold_changing_proj meta (descendants meta) _

lemma builder_scan_image_changing_proj
    (descendants : ImageMeta → List ImageMeta) (dgks : List String)
    (st : ScanState) (im : ImageMeta) :
    (builder_scan_image descendants dgks st im).changing_image_metas =
      builder_scan_image_changing descendants dgks
        st.changing_image_metas im := by
  unfold builder_scan_image builder_scan_image_changing
  by_cases hskip : im.distgit_key ∈ dgks
  · rw [if_pos hskip, if_pos hskip]
  · rw [if_neg hskip, if_neg hskip]
    generalize im.builders = bs
    induction bs generalizing st with
    | nil => rfl
    | cons b rest ih =>
        simp only [List.foldl_cons]
        by_cases hb : b ≠ "" ∧ b ∈ dgks
        · rw [if_pos hb, if_pos hb]
          rw [ih (add_image_meta_change descendants st im (builderHint b))]
          rw [add_image_meta_change_changing_proj]
        · rw [if_neg hb, if_neg hb]
          exact ih st

lemma builder_pass_changing_proj (descendants : ImageMeta → List ImageMeta)
    (all_image_metas : List ImageMeta) (st : ScanState) :
    (builder_pass descendants all_image_metas st).changing_image_metas =
      builder_pass_changing descendants all_image_metas
        st.changing_image_metas := by
  unfold builder_pass builder_pass_changing
  generalize st.changing_image_metas.map (·.distgit_key) = dgks
  have : ∀ (l : List ImageMeta) (s : ScanState),
      (l.foldl (builder_scan_image descendants dgks) s).changing_image_metas =
        l.foldl (builder_scan_image_changing descendants dgks)
          s.changing_image_metas := by
    intro l
    induction l with
    | nil => intro s; rfl
    | cons im rest ih =>
        intro s
        simp only [List.foldl_cons]
        rw [ih, builder_scan_image_changing_proj]
  exact this all_image_metas st

lemma length_filter_not_mem_lt (univ : List ImageMeta)
    {c c' : List ImageMeta} (hsub : ∀ x, x ∈ c → x ∈ c') (e : ImageMeta)
    (he : e ∈ univ) (henc : e ∉ c) (hec' : e ∈ c') :
    (univ.filter (fun x => decide (x ∉ c'))).length <
      (univ.filter (fun x => decide (x ∉ c))).length := by
  have hmono : ∀ (l : List ImageMeta),
      (l.filter (fun x => decide (x ∉ c'))).length ≤
        (l.filter (fun x => decide (x ∉ c))).length := by
    intro l
    refine List.Sublist.length_le (List.monotone_filter_right l ?_)
    intro a ha
    simp only [decide_eq_true_eq] at ha ⊢
    exact fun hc => ha (hsub a hc)
  induction univ with
  | nil => simp at he
  | cons a tl ih =>
      by_cases hea : e = a
      · subst hea
        rw [List.filter_cons, List.filter_cons,
          if_neg (by simp [hec']), if_pos (by simpa using henc)]
        simp only [List.length_cons]
        exact Nat.lt_succ_of_le (hmono tl)
      · have hetl : e ∈ tl := by
          rcases List.mem_cons.mp he with h | h
          · exact absurd h hea
          · exact h
        have hlt := ih hetl
        rw [List.filter_cons, List.filter_cons]
        by_cases hac' : a ∈ c'
        · rw [if_neg (by simp [hac'])]
          by_cases hac : a ∈ c
          · rw [if_neg (by simp [hac])]
            exact hlt
          · rw [if_pos (by simp [hac])]
            exact Nat.lt_succ_of_lt hlt
        · have hacn : a ∉ c := fun hc => hac' (hsub a hc)
          rw [if_pos (by simp [hac']), if_pos (by simp [hacn])]
          simpa using hlt

lemma pass_budget_decrease (descendants : ImageMeta → List ImageMeta)
    (all_image_metas : List ImageMeta) (st : ScanState)
    (hne : (builder_pass descendants all_image_metas
        st).changing_image_metas.length ≠ st.changing_image_metas.length) :
    passBudget descendants all_image_metas
        (builder_pass descendants all_image_metas st) <
      passBudget descendants all_image_metas st := by
  obtain ⟨extras, hext, hpool⟩ :=
    builder_pass_changing_extends descendants all_image_metas
      st.changing_image_metas
  have hproj := builder_pass_changing_proj descendants all_image_metas st
  rw [hproj, hext] at hne
  have hex : extras ≠ [] := by
    intro h
    rw [h] at hne
    simp at hne
  obtain ⟨e, he⟩ := List.exists_mem_of_ne_nil extras hex
  obtain ⟨hepool, henc⟩ := hpool e he
  unfold passBudget
  rw [hproj, hext]
  refine length_filter_not_mem_lt _ ?_ e hepool henc ?_
  · intro x hx
    exact List.mem_append_left _ hx
  · exact List.mem_append_right _ he

lemma loop_reaches_fixpoint (descendants : ImageMeta → List ImageMeta)
    (all_image_metas : List ImageMeta) :
    ∀ (fuel : Nat) (st : ScanState),
      passBudget descendants all_image_metas st < fuel →
      (builder_pass descendants all_image_metas
          (check_builder_images_loop descendants all_image_metas fuel
            st)).changing_image_metas =
        (check_builder_images_loop descendants all_image_metas fuel
          st).changing_image_metas := by
  intro fuel
  induction fuel with
  | zero => intro st h; exact absurd h (Nat.not_lt_zero _)
  | succ f ih =>
      intro st hbudget
      unfold check_builder_images_loop
      by_cases hlen : (builder_pass descendants all_image_metas
          st).changing_image_metas.length =
          (st.changing_image_metas.map (·.distgit_key)).length
      · rw [if_pos hlen]
        -- At the exit, the pass added nothing: the changing set is stable,
        -- and one more pass (a function of the changing set alone) is a no-op.
        obtain ⟨extras, hext, -⟩ :=
          builder_pass_changing_extends descendants all_image_metas
            st.changing_image_metas
        have hproj := builder_pass_changing_proj descendants all_image_metas st
        rw [List.length_map] at hlen
        rw [hproj, hext] at hlen ⊢
        have hnil : extras = [] := by
          have := congrArg id hlen
          simp only [id, List.length_append] at this
          exact List.eq_nil_of_length_eq_zero (by omega)
        subst hnil
        rw [List.append_nil]
        have hproj2 := builder_pass_changing_proj descendants all_image_metas
          (builder_pass descendants all_image_metas st)
        rw [hproj2, hproj, hext, List.append_nil]
        simpa using hext
      · rw [if_neg hlen]
        refine ih _ ?_
        have hdec := pass_budget_decrease descendants all_image_metas st
          (by rwa [List.length_map] at hlen)
        omega

/-- Claim C6. The builder-image pass terminates on every finite component
graph: `check_builder_images` (whose loop compares the changing-set size
before and after each full pass) always exits through that size
comparison, i.e. the state it returns is a genuine fixed point — one more
full pass leaves the changing set unchanged.  On the two-image builder
cycle a→b→a with neither image previously marked, it terminates with
neither marked; with either image already marked, it terminates with both
marked and a `BUILDER_CHANGING` reason recorded for the previously
unmarked one. -/
theorem c6_builder_fixed_point :
    (∀ (descendants : ImageMeta → List ImageMeta)
       (all_image_metas : List ImageMeta) (st : ScanState),
      (builder_pass descendants all_image_metas
          (check_builder_images descendants all_image_metas
            st)).changing_image_metas =
        (check_builder_images descendants all_image_metas
          st).changing_image_metas) ∧
    check_builder_images (fun _ => [])
      [⟨"a", "image/a", ["b"]⟩, ⟨"b", "image/b", ["a"]⟩] ⟨[], []⟩ =
      ⟨[], []⟩ ∧
    check_builder_images (fun _ => [])
      [⟨"a", "image/a", ["b"]⟩, ⟨"b", "image/b", ["a"]⟩]
      ⟨[⟨"a", "image/a", ["b"]⟩], []⟩ =
      ⟨[⟨"a", "image/a", ["b"]⟩, ⟨"b", "image/b", ["a"]⟩],
       [(("image/b", true), "Builder group member has changed: a")]⟩ ∧
    check_builder_images (fun _ => [])
      [⟨"a", "image/a", ["b"]⟩, ⟨"b", "image/b", ["a"]⟩]
      ⟨[⟨"b", "image/b", ["a"]⟩], []⟩ =
      ⟨[⟨"b", "image/b", ["a"]⟩, ⟨"a", "image/a", ["b"]⟩],
       [(("image/a", true), "Builder group member has changed: b")]⟩ := by
  refine ⟨?_, by decide, by decide, by decide⟩
  intro descendants all_image_metas st
  exact loop_reaches_fixpoint descendants all_image_metas _ st
    (Nat.lt_succ_self _)

end ScanSources
